import Mathlib

/-!
# Verification of the incremental batch-summarization stage

Shallow embedding of `app/summarize_papers.py` from the `arxiv_summarizer`
repository, together with theorems settling the frozen claims about it.

Modelling conventions:
* A CSV cell is either a string or NaN (what pandas produces for a missing
  value); a pandas DataFrame row is a `Row`, the whole frame a `List Row`.
* The store file format carries column-presence flags (`Store`), because
  `summarize_all` defensively creates the three summarization columns when
  the file lacks them.
* The filesystem is a map from path strings to optional stores; `pd.read_csv`
  on a missing path (FileNotFoundError) and `range(0, total, 0)`
  (ValueError for step 0) both surface as `none` results of `summarize_all`.
* The external Groq call is a parameter `client : String → ClientResult`
  applied to the exact prompt string the code builds; `summarize_paper`
  additionally reports how many external calls it performed (0 or 1).
* `now_iso()` is modelled by a parameter `clock : Nat → Int` giving the
  timestamp (as a day number since 1970-01-01) returned by the n-th call;
  `tsString` renders it as the date part of the ISO string that
  `now_iso()` would have produced, which is the only part any later
  computation (`week_of_iso` via `pd.to_datetime`) reads.
* The thread pool resolves futures in a nondeterministic completion order,
  but every future writes to its own distinct row index, so the final frame
  does not depend on that order; the embedding serializes each batch in
  submission order.
-/

/-- A pandas cell: a string, or NaN (missing value). -/
inductive Cell where
  | str (s : String)
  | nan
deriving DecidableEq

/-- One row of the paper store.  The fetch stage (`app/fetch_arxiv.py`)
produces `category, title, authors, link, published, summary` (the
abstract), `fetched_at, fetched_week`; `summarize_all` adds
`summary_short, summary_updated, week_of_update` when missing. -/
structure Row where
  category : Cell
  title : Cell
  authors : Cell
  link : Cell
  published : Cell
  /-- The abstract text (named `summary` in the raw CSV). -/
  summary : Cell
  fetched_at : Cell
  fetched_week : Cell
  summary_short : Cell
  summary_updated : Cell
  week_of_update : Cell
deriving DecidableEq

/-- A CSV file on disk: the rows plus which of the three summarization
columns are present (`"summary_short" in df.columns` etc.). -/
structure Store where
  hasSummaryShort : Bool
  hasSummaryUpdated : Bool
  hasWeekOfUpdate : Bool
  rows : List Row
deriving DecidableEq

/-- The path `summarize_all` reads: `pd.read_csv("data/raw/papers.csv")`. -/
def rawPath : String := "data/raw/papers.csv"

/-- The path every checkpoint writes:
`df.to_csv("data/processed/summarized.csv", index=False)`. -/
def processedPath : String := "data/processed/summarized.csv"

/-- A filesystem: CSV stores addressed by path. -/
def FileMap : Type := String → Option Store

/-- Writing a store to one path of the filesystem. -/
def setFile (fs : FileMap) (p : String) (s : Store) : FileMap :=
  fun q => if q = p then some s else fs q

/-- `df.to_csv` writes every column of the in-memory frame, so a checkpoint
always has the three summarization columns. -/
def mkStore (rows : List Row) : Store :=
  { hasSummaryShort := true, hasSummaryUpdated := true,
    hasWeekOfUpdate := true, rows := rows }

/-! ## Calendar arithmetic

`pd.Timestamp.dayofweek` (Monday = 0) and date formatting, on day numbers
counted from 1970-01-01 (proleptic Gregorian, Howard Hinnant's civil
calendar algorithms). -/

/-- Day number since 1970-01-01 of the civil date `y-m-d`. -/
def civilToDays (y : Int) (m d : Nat) : Int :=
  let y' : Int := if m ≤ 2 then y - 1 else y
  let era : Int := y' / 400
  let yoe : Nat := (y' - era * 400).toNat
  let mp : Nat := if 3 ≤ m then m - 3 else m + 9
  let doy : Nat := (153 * mp + 2) / 5 + d - 1
  let doe : Nat := yoe * 365 + yoe / 4 - yoe / 100 + doy
  era * 146097 + (doe : Int) - 719468

/-- Civil date `(y, m, d)` of a day number since 1970-01-01. -/
def daysToCivil (z0 : Int) : Int × Nat × Nat :=
  let z : Int := z0 + 719468
  let era : Int := z / 146097
  let doe : Nat := (z - era * 146097).toNat
  let yoe : Nat := (doe - doe / 1460 + doe / 36524 - doe / 146096) / 365
  let doy : Nat := doe - (365 * yoe + yoe / 4 - yoe / 100)
  let mp : Nat := (5 * doy + 2) / 153
  let d : Nat := doy - (153 * mp + 2) / 5 + 1
  let m : Nat := if mp < 10 then mp + 3 else mp - 9
  ((yoe : Int) + era * 400 + (if m ≤ 2 then 1 else 0), m, d)

/-- `pd.Timestamp.dayofweek`: Monday = 0 … Sunday = 6.
1970-01-01 (day 0) was a Thursday (= 3). -/
def dayofweek (z : Int) : Nat := ((z + 3) % 7).toNat

/-- Zero-pad to two digits (month/day part of `date.isoformat()`). -/
def pad2 (n : Nat) : String :=
  if n < 10 then "0" ++ toString n else toString n

/-- Zero-pad to four digits (year part of `date.isoformat()`; BC years do
not occur for any timestamp this program produces). -/
def pad4 (n : Nat) : String :=
  if n < 10 then "000" ++ toString n
  else if n < 100 then "00" ++ toString n
  else if n < 1000 then "0" ++ toString n
  else toString n

/-- `date.isoformat()`: `YYYY-MM-DD` for a day number. -/
def isoDateOfDays (z : Int) : String :=
  let c := daysToCivil z
  pad4 c.1.toNat ++ "-" ++ pad2 c.2.1 ++ "-" ++ pad2 c.2.2

/-- `week_of_iso(ts)` from `app/summarize_papers.py`:
`monday = dt - pd.Timedelta(days=dt.dayofweek)`, then
`f"Week of {monday.date().isoformat()}"`.  The argument is the parsed
timestamp (`pd.to_datetime(ts)`), as a day number. -/
def week_of_iso (dt : Int) : String :=
  "Week of " ++ isoDateOfDays (dt - (dayofweek dt : Int))

/-- The string stored into `summary_updated`: the date part of the ISO
timestamp `now_iso()` returned (time of day and offset are carried by the
real string but never read by any later computation, so the model elides
them; `pd.to_datetime` of this string has day number `d` again). -/
def tsString (d : Int) : String := isoDateOfDays d

/-! ## The Summarization Client (`summarize_paper`) -/

/-- Outcome of one `groq_client.chat.completions.create` call:
generated text, or any raised transport/service error. -/
inductive ClientResult where
  | ok (text : String)
  | err
deriving DecidableEq

/-- An exception escaping `summarize_paper` (its `try` only guards the
external call, so only the `abstract.strip()` attribute error on a
non-string cell can escape). -/
inductive PError where
  | attributeError
deriving DecidableEq

/-- How Python's f-string renders a cell (`float('nan')` prints `nan`). -/
def cellToString : Cell → String
  | .str s => s
  | .nan => "nan"

/-- Python `str.strip()`: remove leading and trailing whitespace.
Written by structural recursion on the character list so that concrete
runs evaluate inside the kernel (core's `String.trim` is defined through
well-founded recursion on byte positions and does not reduce there). -/
def strip (s : String) : String :=
  ⟨(((s.data.dropWhile Char.isWhitespace).reverse).dropWhile
      Char.isWhitespace).reverse⟩

/-- The exact prompt `summarize_paper` builds. -/
def prompt_for (title abstract : String) : String :=
  "Summarize this research paper for a general audience:\n\nTitle: "
    ++ title ++ "\n\nAbstract: " ++ abstract ++ "\n\nSummary:"

/-- `summarize_paper(title, abstract)`:
* `abstract.strip()` on a NaN cell raises `AttributeError` before the
  `try` block is reached — the error escapes, and no call is made;
* a blank abstract short-circuits to the "no abstract" sentinel — no call;
* otherwise one external call: its text is returned `.strip()`ped, and any
  raised error is caught and converted to the error sentinel.
The second component counts external calls performed (0 or 1). -/
def summarize_paper (client : String → ClientResult) (title abstract : Cell) :
    Except PError String × Nat :=
  match abstract with
  | .nan => (.error .attributeError, 0)
  | .str a =>
    if strip a = "" then (.ok "No abstract available to summarize.", 0)
    else
      match client (prompt_for (cellToString title) a) with
      | .ok text => (.ok (strip text), 1)
      | .err => (.ok "Error generating summary.", 1)

/-! ## The Batch Scheduler (`summarize_all`) -/

/-- `df["summary_short"].isna()` for one cell. -/
def isna : Cell → Bool
  | .str _ => false
  | .nan => true

/-- The pending mask:
`df["summary_short"].isna() | (df["summary_short"] == "")`. -/
def pendingRow (r : Row) : Bool :=
  isna r.summary_short || r.summary_short == Cell.str ""

/-- `head(limit)`: truncate the whole store to its first `limit` rows. -/
def headStore (limit : Nat) (s : Store) : Store :=
  { s with rows := s.rows.take limit }

/-- The three `if "…" not in df.columns: df["…"] = ""` statements:
create any missing summarization column, empty. -/
def ensureCols (s : Store) : Store :=
  { hasSummaryShort := true, hasSummaryUpdated := true,
    hasWeekOfUpdate := true,
    rows := s.rows.map fun r =>
      let r1 := if s.hasSummaryShort then r
                else { r with summary_short := Cell.str "" }
      let r2 := if s.hasSummaryUpdated then r1
                else { r1 with summary_updated := Cell.str "" }
      if s.hasWeekOfUpdate then r2
      else { r2 with week_of_update := Cell.str "" } }

/-- `df[mask]` keeping the original positional index: the rows satisfying
`p`, each paired with its position in the full frame (counting from `n`). -/
def enumFilter (p : Row → Bool) : Nat → List Row → List (Nat × Row)
  | _, [] => []
  | n, r :: rs =>
    if p r then (n, r) :: enumFilter p (n + 1) rs else enumFilter p (n + 1) rs

/-- `df_to_process`: the pending subset (with original indices) the run
computes from a raw store — `read → head(limit) → ensure columns → mask`. -/
def computePending (limit : Nat) (store : Store) : List (Nat × Row) :=
  enumFilter pendingRow 0 (ensureCols (headStore limit store)).rows

/-- In-place update of a frame at one positional index
(`df.loc[idx, …] = …`). -/
def updateAt : List Row → Nat → (Row → Row) → List Row
  | [], _, _ => []
  | r :: rs, 0, f => f r :: rs
  | r :: rs, n + 1, f => r :: updateAt rs n f

/-- What the collection loop writes into the row at a future's index:
* a normal result (`future.result()` returned `summary_text`): set
  `summary_short`, the `summary` mirror, and stamp
  `summary_updated`/`week_of_update` from one fresh `now_iso()` call;
* a raised exception (only the NaN-abstract `AttributeError` can occur):
  the `except` branch sets `summary_short` to the error sentinel only. -/
def applyResult (client : String → ClientResult) (clock : Nat → Int)
    (tick : Nat) (item : Nat × Row) (row : Row) : Row :=
  match (summarize_paper client item.2.title item.2.summary).1 with
  | .ok text =>
    let ts := clock tick
    { row with summary_short := Cell.str text, summary := Cell.str text,
               summary_updated := Cell.str (tsString ts),
               week_of_update := Cell.str (week_of_iso ts) }
  | .error _ =>
    { row with summary_short := Cell.str "Error generating summary." }

/-- Whether collecting this item calls `now_iso()` (every path except the
raised-exception one does). -/
def consumesTick (client : String → ClientResult) (item : Nat × Row) : Bool :=
  match (summarize_paper client item.2.title item.2.summary).1 with
  | .ok _ => true
  | .error _ => false

/-- Collect one completed future into the frame; state is
`(in-memory frame, number of now_iso() calls so far)`. -/
def collectOne (client : String → ClientResult) (clock : Nat → Int)
    (st : List Row × Nat) (item : Nat × Row) : List Row × Nat :=
  (updateAt st.1 item.1 (applyResult client clock st.2 item),
   st.2 + (if consumesTick client item then 1 else 0))

/-- `range(0, total, batch_size)` slicing, with explicit fuel so the
definition computes by structural recursion (fuel ≥ list length suffices). -/
def chunksAux (bs : Nat) : Nat → List (Nat × Row) → List (List (Nat × Row))
  | 0, _ => []
  | _, [] => []
  | fuel + 1, x :: xs =>
    ((x :: xs).take bs) :: chunksAux bs fuel (xs.drop (bs - 1))

/-- `df_to_process.iloc[i:i+batch_size]` for `i = 0, bs, 2*bs, …`:
consecutive slices of size `bs` (last one possibly shorter). -/
def chunks (bs : Nat) (l : List (Nat × Row)) : List (List (Nat × Row)) :=
  chunksAux bs l.length l

/-- The batch loop: process each batch in order, and after each batch
record the checkpoint (`df.to_csv` of the entire in-memory frame).
Returns the final state and the list of checkpoints in order. -/
def runBatches (client : String → ClientResult) (clock : Nat → Int) :
    List (List (Nat × Row)) → List Row × Nat → (List Row × Nat) × List (List Row)
  | [], st => (st, [])
  | b :: bsl, st =>
    let st' := b.foldl (collectOne client clock) st
    let rest := runBatches client clock bsl st'
    (rest.1, st'.1 :: rest.2)

/-- What one run returns and persists. -/
structure RunResult where
  /-- The final in-memory frame (the function's `return df`). -/
  df : List Row
  /-- Every frame written to `data/processed/summarized.csv`, in order. -/
  checkpoints : List (List Row)
deriving DecidableEq

/-- `summarize_all(concurrent_requests, batch_size, limit)`:
read `data/raw/papers.csv` (missing file ⇒ fatal, `none`), truncate with
`head(limit)`, create missing summarization columns, select the pending
subset, process it in batches of `batch_size` (step 0 ⇒ `ValueError`,
`none`), checkpoint the whole frame to `data/processed/summarized.csv`
after every batch.  `concurrent_requests` only bounds in-flight calls,
which the sequential embedding serializes.  Returns the run result and the
final filesystem. -/
def summarize_all (client : String → ClientResult) (clock : Nat → Int)
    (fs : FileMap) (concurrent_requests batch_size limit : Nat) :
    Option (RunResult × FileMap) :=
  match fs rawPath with
  | none => none
  | some store =>
    if batch_size = 0 then none
    else
      let df := (ensureCols (headStore limit store)).rows
      let df_to_process := computePending limit store
      let batches := chunks batch_size df_to_process
      let out := runBatches client clock batches (df, 0)
      let fsF := out.2.foldl (fun f cp => setFile f processedPath (mkStore cp)) fs
      some ({ df := out.1.1, checkpoints := out.2 }, fsF)

/-! ## Concrete fixtures -/

/-- A fetched, still-pending row with abstract `"hello"`. -/
def row0 : Row :=
  { category := .str "cs.LG", title := .str "T", authors := .str "A",
    link := .str "http://x", published := .str "2025-03-01",
    summary := .str "hello", fetched_at := .str "2025-03-11",
    fetched_week := .str "Week of 2025-03-10",
    summary_short := .str "", summary_updated := .str "",
    week_of_update := .str "" }

/-- A one-row raw store. -/
def store0 : Store := ⟨true, true, true, [row0]⟩

/-- A filesystem holding only the raw input store. -/
def fs0 : FileMap := fun p => if p = rawPath then some store0 else none

/-- A client whose every call succeeds with text `"S"`. -/
def okClient : String → ClientResult := fun _ => .ok "S"

/-- A client whose every call raises (transport/service error). -/
def errClient : String → ClientResult := fun _ => .err

/-- A clock stuck at day 20159 (2025-03-12). -/
def clock0 : Nat → Int := fun _ => 20159

/-- A row already carrying the error sentinel from a previous run. -/
def errRow : Row := { row0 with summary_short := .str "Error generating summary." }

/-- A store whose only row carries the error sentinel. -/
def errStore : Store := ⟨true, true, true, [errRow]⟩

/-- A row whose abstract cell is NaN (blank cell in the CSV). -/
def nanRow : Row := { row0 with summary := Cell.nan }

/-- A raw store of 25 pending rows (the §8 batch-count scenario). -/
def store25 : Store := ⟨true, true, true, List.replicate 25 row0⟩

/-- A filesystem holding the 25-row store as raw input. -/
def fs25 : FileMap := fun p => if p = rawPath then some store25 else none

/-- A raw store of 200 pending rows (the §8 limit-truncation scenario). -/
def store200 : Store := ⟨true, true, true, List.replicate 200 row0⟩

/-- A filesystem holding the 200-row store as raw input. -/
def fs200 : FileMap := fun p => if p = rawPath then some store200 else none

/-- The fields the fetch stage owns and the scheduler must not touch:
`category, title, authors, link, published, fetched_at, fetched_week`
(everything it produces except the `summary` abstract column). -/
def frameProj (r : Row) : Cell × Cell × Cell × Cell × Cell × Cell × Cell :=
  (r.category, r.title, r.authors, r.link, r.published, r.fetched_at,
   r.fetched_week)

/-! ## Helper lemmas: frame updates -/

theorem updateAt_length (l : List Row) (i : Nat) (f : Row → Row) :
    (updateAt l i f).length = l.length := by
  induction l generalizing i with
  | nil => rfl
  | cons r rs ih =>
    cases i with
    | zero => rfl
    | succ n => simp [updateAt, ih]

theorem get?_updateAt_self (l : List Row) (i : Nat) (f : Row → Row) :
    (updateAt l i f).get? i = (l.get? i).map f := by
  induction l generalizing i with
  | nil => rfl
  | cons r rs ih =>
    cases i with
    | zero => rfl
    | succ n => simpa [updateAt] using ih n

theorem get?_updateAt_ne (l : List Row) (i j : Nat) (f : Row → Row)
    (h : j ≠ i) : (updateAt l i f).get? j = l.get? j := by
  induction l generalizing i j with
  | nil => rfl
  | cons r rs ih =>
    cases i with
    | zero =>
      cases j with
      | zero => exact absurd rfl h
      | succ m => rfl
    | succ n =>
      cases j with
      | zero => rfl
      | succ m => simpa [updateAt] using ih n m (fun hc => h (by rw [hc]))

theorem updateAt_map_congr (g : Row → Cell × Cell × Cell × Cell × Cell × Cell × Cell)
    (l : List Row) (i : Nat) (f : Row → Row) (hf : ∀ r, g (f r) = g r) :
    (updateAt l i f).map g = l.map g := by
  induction l generalizing i with
  | nil => rfl
  | cons r rs ih =>
    cases i with
    | zero => simp [updateAt, hf]
    | succ n => simp [updateAt, ih]

/-! ## Helper lemmas: the pending selection -/

theorem enumFilter_mem {p : Row → Bool} :
    ∀ {n : Nat} {l : List Row} {i : Nat} {r : Row},
      (i, r) ∈ enumFilter p n l →
      n ≤ i ∧ l.get? (i - n) = some r ∧ p r = true := by
  intro n l
  induction l generalizing n with
  | nil => intro i r h; simp [enumFilter] at h
  | cons x xs ih =>
    intro i r h
    by_cases hx : p x
    · rw [enumFilter, if_pos hx] at h
      rcases List.mem_cons.mp h with h1 | h2
      · injection h1 with h1a h1b
        subst h1a; subst h1b
        exact ⟨Nat.le_refl _, by simp, hx⟩
      · obtain ⟨hle, hget, hp⟩ := ih h2
        refine ⟨Nat.le_of_succ_le hle, ?_, hp⟩
        have hd : i - n = (i - (n + 1)) + 1 := by omega
        rw [hd]; simpa using hget
    · rw [enumFilter, if_neg hx] at h
      obtain ⟨hle, hget, hp⟩ := ih h
      refine ⟨Nat.le_of_succ_le hle, ?_, hp⟩
      have hd : i - n = (i - (n + 1)) + 1 := by omega
      rw [hd]; simpa using hget

theorem enumFilter_mem_of {p : Row → Bool} :
    ∀ {n : Nat} {l : List Row} {i : Nat} {r : Row},
      l.get? i = some r → p r = true → (n + i, r) ∈ enumFilter p n l := by
  intro n l
  induction l generalizing n with
  | nil => intro i r h; simp at h
  | cons x xs ih =>
    intro i r hget hp
    cases i with
    | zero =>
      simp at hget; subst hget
      rw [enumFilter, if_pos hp]
      simp
    | succ m =>
      simp only [List.get?] at hget
      have := ih (n := n + 1) hget hp
      have harith : n + 1 + m = n + (m + 1) := by omega
      rw [harith] at this
      by_cases hx : p x
      · rw [enumFilter, if_pos hx]; exact List.mem_cons_of_mem _ this
      · rw [enumFilter, if_neg hx]; exact this

theorem enumFilter_pairwise (p : Row → Bool) :
    ∀ (n : Nat) (l : List Row),
      (enumFilter p n l).Pairwise (fun a b => a.1 < b.1) := by
  intro n l
  induction l generalizing n with
  | nil => exact List.Pairwise.nil
  | cons x xs ih =>
    by_cases hx : p x
    · rw [enumFilter, if_pos hx]
      refine List.pairwise_cons.mpr ⟨?_, ih (n + 1)⟩
      intro b hb
      exact Nat.lt_of_lt_of_le (Nat.lt_succ_self n) (enumFilter_mem hb).1
    · rw [enumFilter, if_neg hx]; exact ih (n + 1)

/-! ## Helper lemmas: collecting a sequence of futures -/

theorem foldl_collect_length (client : String → ClientResult) (clock : Nat → Int) :
    ∀ (items : List (Nat × Row)) (st : List Row × Nat),
      (items.foldl (collectOne client clock) st).1.length = st.1.length := by
  intro items
  induction items with
  | nil => intro st; rfl
  | cons it rest ih =>
    intro st
    rw [List.foldl_cons, ih]
    simp [collectOne, updateAt_length]

theorem foldl_collect_get?_not_mem (client : String → ClientResult) (clock : Nat → Int) :
    ∀ (items : List (Nat × Row)) (st : List Row × Nat) (i : Nat),
      (∀ b ∈ items, b.1 ≠ i) →
      (items.foldl (collectOne client clock) st).1.get? i = st.1.get? i := by
  intro items
  induction items with
  | nil => intro st i _; rfl
  | cons it rest ih =>
    intro st i h
    rw [List.foldl_cons, ih _ _ (fun b hb => h b (List.mem_cons_of_mem _ hb))]
    exact get?_updateAt_ne _ _ _ _ (fun hc => h it (List.mem_cons_self it rest) hc.symm)

theorem foldl_collect_get? (client : String → ClientResult) (clock : Nat → Int) :
    ∀ (items : List (Nat × Row)) (st : List Row × Nat) (k i : Nat) (r : Row),
      items.Pairwise (fun a b => a.1 ≠ b.1) →
      items.get? k = some (i, r) →
      (items.foldl (collectOne client clock) st).1.get? i
        = (st.1.get? i).map
            (applyResult client clock
              (st.2 + (items.take k).countP (consumesTick client)) (i, r)) := by
  intro items
  induction items with
  | nil => intro st k i r _ hk; simp at hk
  | cons it rest ih =>
    intro st k i r hpw hk
    obtain ⟨hhead, htail⟩ := List.pairwise_cons.mp hpw
    cases k with
    | zero =>
      simp only [List.get?] at hk
      injection hk with hk; subst hk
      rw [List.foldl_cons,
        foldl_collect_get?_not_mem client clock rest _ i
          (fun b hb => (hhead b hb).symm)]
      simp only [collectOne, List.take_zero, List.countP_nil, Nat.add_zero]
      exact get?_updateAt_self _ _ _
    | succ m =>
      simp only [List.get?] at hk
      have hmem : (i, r) ∈ rest := List.get?_mem hk
      have hne : it.1 ≠ i := hhead (i, r) hmem
      rw [List.foldl_cons, ih _ m i r htail hk]
      simp only [collectOne]
      rw [get?_updateAt_ne _ _ _ _ (fun hc => hne hc.symm)]
      have harith :
          st.2 + (if consumesTick client it then 1 else 0)
              + (rest.take m).countP (consumesTick client)
            = st.2 + ((it :: rest).take (m + 1)).countP (consumesTick client) := by
        rw [List.take_succ_cons, List.countP_cons]
        cases consumesTick client it <;> simp <;> omega
      rw [harith]

theorem foldl_collect_frame (client : String → ClientResult) (clock : Nat → Int)
    (g : Row → Cell × Cell × Cell × Cell × Cell × Cell × Cell)
    (hg : ∀ tick item row, g (applyResult client clock tick item row) = g row) :
    ∀ (items : List (Nat × Row)) (st : List Row × Nat),
      (items.foldl (collectOne client clock) st).1.map g = st.1.map g := by
  intro items
  induction items with
  | nil => intro st; rfl
  | cons it rest ih =>
    intro st
    rw [List.foldl_cons, ih]
    exact updateAt_map_congr g _ _ _ (hg st.2 it)

/-! ## Helper lemmas: batch partitioning -/

theorem chunksAux_join (n : Nat) :
    ∀ (fuel : Nat) (l : List (Nat × Row)), l.length ≤ fuel →
      (chunksAux (n + 1) fuel l).join = l := by
  intro fuel
  induction fuel with
  | zero =>
    intro l h
    cases l with
    | nil => rfl
    | cons x xs => simp at h
  | succ fuel ih =>
    intro l h
    cases l with
    | nil => rfl
    | cons x xs =>
      have hdrop : (xs.drop n).length ≤ fuel := by
        rw [List.length_drop]
        simp at h
        omega
      simp only [chunksAux, Nat.add_sub_cancel, List.join_cons, ih _ hdrop]
      rw [List.take_succ_cons]
      exact congrArg (x :: ·) (List.take_append_drop n xs)

theorem chunksAux_length (n : Nat) :
    ∀ (fuel : Nat) (l : List (Nat × Row)), l.length ≤ fuel →
      (chunksAux (n + 1) fuel l).length = (l.length + n) / (n + 1) := by
  intro fuel
  induction fuel with
  | zero =>
    intro l h
    cases l with
    | nil => simpa [chunksAux] using (Nat.div_eq_of_lt (Nat.lt_succ_self n)).symm
    | cons x xs => simp at h
  | succ fuel ih =>
    intro l h
    cases l with
    | nil => simpa [chunksAux] using (Nat.div_eq_of_lt (Nat.lt_succ_self n)).symm
    | cons x xs =>
      have hdrop : (xs.drop n).length ≤ fuel := by
        rw [List.length_drop]
        simp at h
        omega
      simp only [chunksAux, Nat.add_sub_cancel, List.length_cons, ih _ hdrop,
        List.length_drop]
      by_cases hc : n ≤ xs.length
      · rw [Nat.sub_add_cancel hc]
        have hre : xs.length + 1 + n = xs.length + (n + 1) := by omega
        rw [hre, Nat.add_div_right _ (Nat.succ_pos n)]
      · have h0 : xs.length - n = 0 := by omega
        rw [h0, Nat.zero_add, Nat.div_eq_of_lt (Nat.lt_succ_self n)]
        have h1 : (xs.length + 1 + n) / (n + 1) = 1 := by
          apply Nat.div_eq_of_lt_le <;> omega
        omega

theorem chunksAux_sizes (n : Nat) :
    ∀ (fuel : Nat) (l : List (Nat × Row)), l.length ≤ fuel →
      ∀ c ∈ chunksAux (n + 1) fuel l, c ≠ [] ∧ c.length ≤ n + 1 := by
  intro fuel
  induction fuel with
  | zero =>
    intro l h c hc
    cases l with
    | nil => simp [chunksAux] at hc
    | cons x xs => simp at h
  | succ fuel ih =>
    intro l h c hc
    cases l with
    | nil => simp [chunksAux] at hc
    | cons x xs =>
      have hdrop : (xs.drop n).length ≤ fuel := by
        rw [List.length_drop]
        simp at h
        omega
      simp only [chunksAux, Nat.add_sub_cancel] at hc
      rcases List.mem_cons.mp hc with h1 | h2
      · subst h1
        constructor
        · rw [List.take_succ_cons]; exact List.cons_ne_nil _ _
        · simpa using Nat.min_le_left (n + 1) (xs.length + 1)
      · exact ih _ hdrop c h2

theorem chunks_join (bs : Nat) (l : List (Nat × Row)) (h : bs ≠ 0) :
    (chunks bs l).join = l := by
  obtain ⟨n, rfl⟩ := Nat.exists_eq_succ_of_ne_zero h
  exact chunksAux_join n l.length l (Nat.le_refl _)

theorem chunks_length (bs : Nat) (l : List (Nat × Row)) (h : bs ≠ 0) :
    (chunks bs l).length = (l.length + (bs - 1)) / bs := by
  obtain ⟨n, rfl⟩ := Nat.exists_eq_succ_of_ne_zero h
  simpa using chunksAux_length n l.length l (Nat.le_refl _)

theorem chunks_sizes (bs : Nat) (l : List (Nat × Row)) (h : bs ≠ 0) :
    ∀ c ∈ chunks bs l, c ≠ [] ∧ c.length ≤ bs := by
  obtain ⟨n, rfl⟩ := Nat.exists_eq_succ_of_ne_zero h
  exact chunksAux_sizes n l.length l (Nat.le_refl _)

/-! ## Helper lemmas: the batch loop and checkpoints -/

theorem runBatches_fst (client : String → ClientResult) (clock : Nat → Int) :
    ∀ (bsl : List (List (Nat × Row))) (st : List Row × Nat),
      (runBatches client clock bsl st).1
        = bsl.join.foldl (collectOne client clock) st := by
  intro bsl
  induction bsl with
  | nil => intro st; rfl
  | cons b rest ih =>
    intro st
    simp only [runBatches, List.join_cons, List.foldl_append]
    exact ih _

theorem runBatches_snd_length (client : String → ClientResult) (clock : Nat → Int) :
    ∀ (bsl : List (List (Nat × Row))) (st : List Row × Nat),
      (runBatches client clock bsl st).2.length = bsl.length := by
  intro bsl
  induction bsl with
  | nil => intro st; rfl
  | cons b rest ih =>
    intro st
    simp only [runBatches, List.length_cons, ih]

theorem runBatches_snd_rows (client : String → ClientResult) (clock : Nat → Int) :
    ∀ (bsl : List (List (Nat × Row))) (st : List Row × Nat),
      ∀ cp ∈ (runBatches client clock bsl st).2, cp.length = st.1.length := by
  intro bsl
  induction bsl with
  | nil => intro st cp hcp; simp [runBatches] at hcp
  | cons b rest ih =>
    intro st cp hcp
    simp only [runBatches] at hcp
    rcases List.mem_cons.mp hcp with h1 | h2
    · subst h1; exact foldl_collect_length client clock b st
    · rw [ih _ cp h2, foldl_collect_length client clock b st]

theorem checkpointFold_frame (cps : List (List Row)) :
    ∀ (fs : FileMap) (p : String), p ≠ processedPath →
      (cps.foldl (fun f cp => setFile f processedPath (mkStore cp)) fs) p = fs p := by
  induction cps with
  | nil => intro fs p _; rfl
  | cons c rest ih =>
    intro fs p hp
    rw [List.foldl_cons, ih _ p hp, setFile, if_neg hp]

theorem summarize_all_some (client : String → ClientResult) (clock : Nat → Int)
    (fs : FileMap) (cr bs limit : Nat) (store : Store)
    (hbs : bs ≠ 0) (hraw : fs rawPath = some store) :
    summarize_all client clock fs cr bs limit =
      some ({ df := (runBatches client clock (chunks bs (computePending limit store))
                      ((ensureCols (headStore limit store)).rows, 0)).1.1,
              checkpoints := (runBatches client clock (chunks bs (computePending limit store))
                      ((ensureCols (headStore limit store)).rows, 0)).2 },
            ((runBatches client clock (chunks bs (computePending limit store))
                      ((ensureCols (headStore limit store)).rows, 0)).2).foldl
              (fun f cp => setFile f processedPath (mkStore cp)) fs) := by
  simp [summarize_all, hraw, hbs]

/-! ## Claim theorems -/

/-- C6: for every (title, abstract) pair whose abstract is empty or
whitespace-only, `summarize_paper` returns the fixed "no abstract
available" sentinel and performs no external call. -/
theorem blank_abstract_no_call (client : String → ClientResult) (title : Cell)
    (a : String) (h : strip a = "") :
    summarize_paper client title (Cell.str a)
      = (Except.ok "No abstract available to summarize.", 0) := by
  simp [summarize_paper, h]

/-- C6 witness: a whitespace-only abstract at a concrete input. -/
theorem blank_abstract_no_call_witness :
    summarize_paper okClient (Cell.str "T") (Cell.str " ")
      = (Except.ok "No abstract available to summarize.", 0) :=
  blank_abstract_no_call okClient (Cell.str "T") " " (by decide)

/-- C7: `week_of_iso` renders "Week of " followed by the ISO date of
`dt - dayofweek dt`, which is the Monday (day-of-week 0) of the calendar
week containing the timestamp (it lies at most 6 days before it); the
timestamp 2025-03-12 (a Wednesday, day-of-week 2) yields
"Week of 2025-03-10". -/
theorem week_of_update_is_monday (d : Int) :
    week_of_iso d = "Week of " ++ isoDateOfDays (d - (dayofweek d : Int))
    ∧ dayofweek (d - (dayofweek d : Int)) = 0
    ∧ d - (dayofweek d : Int) ≤ d
    ∧ d < d - (dayofweek d : Int) + 7
    ∧ week_of_iso (civilToDays 2025 3 12) = "Week of 2025-03-10"
    ∧ dayofweek (civilToDays 2025 3 12) = 2 := by
  have hge : (0 : Int) ≤ (d + 3) % 7 := Int.emod_nonneg _ (by norm_num)
  have hw : ((((d : Int) + 3) % 7).toNat : Int) = (d + 3) % 7 :=
    Int.toNat_of_nonneg hge
  refine ⟨rfl, ?_, ?_, ?_, by decide, by decide⟩
  · simp only [dayofweek, hw]
    have hkey : (d - (d + 3) % 7 + 3) % 7 = 0 := by
      have heq : d - (d + 3) % 7 + 3 = (d + 3) - (d + 3) % 7 := by ring
      rw [heq, Int.sub_emod, Int.emod_emod_of_dvd _ (dvd_refl 7), sub_self,
        Int.zero_emod]
    rw [hkey]
    rfl
  · simp only [dayofweek, hw]
    omega
  · simp only [dayofweek, hw]
    omega

/-- C9: the scheduler reads `data/raw/papers.csv` and writes checkpoints
only to the distinct path `data/processed/summarized.csv`, so the input
store file is unchanged by every run (the `getD` supplies the unchanged
value for aborted runs, which write nothing at all). -/
theorem input_store_never_written :
    rawPath ≠ processedPath
    ∧ ∀ (client : String → ClientResult) (clock : Nat → Int) (fs : FileMap)
        (cr bs limit : Nat),
        ((summarize_all client clock fs cr bs limit).map
            (fun out => out.2 rawPath)).getD (fs rawPath) = fs rawPath := by
  refine ⟨by decide, ?_⟩
  intro client clock fs cr bs limit
  cases hraw : fs rawPath with
  | none => simp [summarize_all, hraw]
  | some store =>
    by_cases hbs : bs = 0
    · subst hbs; simp [summarize_all, hraw]
    · rw [summarize_all_some client clock fs cr bs limit store hbs hraw]
      simp only [Option.map_some', Option.getD_some]
      exact (checkpointFold_frame _ fs rawPath (by decide)).trans hraw

/-- C10: a NaN abstract makes `abstract.strip()` raise `AttributeError`
before the `try` guard (no call is made, the error escapes
`summarize_paper`), and the collection loop's `except` branch then writes
only the error sentinel into `summary_short`, leaving `summary_updated`,
`week_of_update` and the `summary` mirror untouched and consuming no
`now_iso()` call. -/
theorem nan_abstract_error_isolated (client : String → ClientResult)
    (clock : Nat → Int) (df : List Row) (tick i : Nat) (r : Row)
    (h : r.summary = Cell.nan) :
    summarize_paper client r.title r.summary
        = (Except.error PError.attributeError, 0)
    ∧ collectOne client clock (df, tick) (i, r)
        = (updateAt df i (fun row =>
            { row with summary_short := Cell.str "Error generating summary." }),
           tick) := by
  have hsp : summarize_paper client r.title r.summary
      = (Except.error PError.attributeError, 0) := by rw [h]; rfl
  refine ⟨hsp, ?_⟩
  simp only [collectOne, consumesTick, hsp]
  refine Prod.ext ?_ (by simp)
  exact congrArg (updateAt df i) (funext fun row => by simp [applyResult, hsp])

/-- C10 witness: the NaN-abstract row at a concrete input. -/
theorem nan_abstract_error_isolated_witness :
    summarize_paper okClient nanRow.title nanRow.summary
        = (Except.error PError.attributeError, 0)
    ∧ collectOne okClient clock0 ([nanRow], 0) (0, nanRow)
        = (updateAt [nanRow] 0 (fun row =>
            { row with summary_short := Cell.str "Error generating summary." }),
           0) :=
  nan_abstract_error_isolated okClient clock0 [nanRow] 0 0 nanRow rfl

/-- C4: a row is selected into the pending work set iff its
`summary_short` is NaN or the empty string; in particular a row carrying
the error sentinel from a previous run is never selected. -/
theorem pending_selection_iff (limit : Nat) (store : Store) (i : Nat) (r : Row) :
    ((i, r) ∈ computePending limit store
      ↔ (ensureCols (headStore limit store)).rows.get? i = some r
          ∧ (isna r.summary_short = true ∨ r.summary_short = Cell.str ""))
    ∧ (r.summary_short = Cell.str "Error generating summary."
        → (i, r) ∉ computePending limit store) := by
  have hiff : (i, r) ∈ computePending limit store
      ↔ (ensureCols (headStore limit store)).rows.get? i = some r
          ∧ pendingRow r = true := by
    constructor
    · intro h
      obtain ⟨-, hget, hp⟩ := enumFilter_mem h
      exact ⟨by simpa using hget, hp⟩
    · rintro ⟨hget, hp⟩
      simpa using enumFilter_mem_of (n := 0) hget hp
  have hpend : pendingRow r = true
      ↔ (isna r.summary_short = true ∨ r.summary_short = Cell.str "") := by
    simp [pendingRow]
  constructor
  · exact hiff.trans (and_congr_right fun _ => hpend)
  · intro hs h
    have hp := (hiff.mp h).2
    simp [pendingRow, isna, hs] at hp

/-- C5: `head(limit)` truncates the whole store before the pending mask is
applied — every pending candidate has index `< limit` and comes unchanged
from the first `limit` rows of the (column-completed) store; the in-memory
frame never holds more than `limit` rows, and the raw file holding the rows
beyond `limit` is untouched by the run. -/
theorem limit_truncation_before_pending (store : Store) (limit : Nat) :
    (∀ i r, (i, r) ∈ computePending limit store →
        i < limit ∧ (ensureCols store).rows.get? i = some r)
    ∧ (ensureCols (headStore limit store)).rows.length ≤ limit
    ∧ ∀ (client : String → ClientResult) (clock : Nat → Int) (fs : FileMap)
        (cr bs : Nat), bs ≠ 0 → fs rawPath = some store →
        (summarize_all client clock fs cr bs limit).map
            (fun out => (out.1.df.length, out.2 rawPath))
          = some ((ensureCols (headStore limit store)).rows.length, fs rawPath) := by
  have hcomm : (ensureCols (headStore limit store)).rows
      = (ensureCols store).rows.take limit := by
    simp [ensureCols, headStore, List.map_take]
  have hlen : (ensureCols (headStore limit store)).rows.length ≤ limit := by
    rw [hcomm, List.length_take]
    exact Nat.min_le_left _ _
  refine ⟨?_, hlen, ?_⟩
  · intro i r h
    obtain ⟨-, hget, -⟩ := enumFilter_mem h
    have hget' : (ensureCols (headStore limit store)).rows.get? i = some r := by
      simpa using hget
    have hlt : i < limit := by
      by_contra hcon
      rw [List.get?_eq_none.mpr
        (Nat.le_trans hlen (Nat.le_of_not_lt hcon))] at hget'
      exact Option.noConfusion hget'
    refine ⟨hlt, ?_⟩
    rw [hcomm, List.get?_take hlt] at hget'
    exact hget'
  · intro client clock fs cr bs hbs hraw
    rw [summarize_all_some client clock fs cr bs limit store hbs hraw]
    simp only [Option.map_some', Option.some.injEq, Prod.mk.injEq]
    constructor
    · rw [runBatches_fst]
      exact foldl_collect_length _ _ _ _
    · exact checkpointFold_frame _ fs rawPath (by decide)

/-- C5 witness: the 200-row store with `limit = 100` keeps at most 100 rows
in memory and leaves the raw input file unchanged. -/
theorem limit_truncation_witness :
    (summarize_all okClient clock0 fs200 5 10 100).map
        (fun out => (out.1.df.length, out.2 rawPath))
      = some ((ensureCols (headStore 100 store200)).rows.length, fs200 rawPath) :=
  (limit_truncation_before_pending store200 100).2.2 okClient clock0 fs200 5 10
    (by decide) rfl

/-- C3 counterexample: the run rewrites the abstract — after summarizing
the one-row store, the `summary` column (the fetch stage's abstract field)
no longer holds its original contents, contradicting the claim that every
fetch-produced field other than the three summarization columns is left
unchanged. -/
theorem scheduler_rewrites_abstract :
    (summarize_all okClient clock0 fs0 5 10 100).map
        (fun out => out.1.df.map (fun r => r.summary))
      ≠ some (store0.rows.map (fun r => r.summary)) := by
  decide

/-- C3 amended: the scheduler adds or updates the three summarization
columns and additionally mirrors each generated result into the `summary`
(abstract) column; the remaining fetch-stage fields — `category, title,
authors, link, published, fetched_at, fetched_week` — are unchanged on
every row, and no row is ever deleted (the frame keeps its length). -/
theorem scheduler_frame_effect (client : String → ClientResult)
    (clock : Nat → Int) (fs : FileMap) (cr bs limit : Nat) (store : Store)
    (hbs : bs ≠ 0) (hraw : fs rawPath = some store) :
    (summarize_all client clock fs cr bs limit).map
        (fun out => (out.1.df.map frameProj, out.1.df.length))
      = some ((ensureCols (headStore limit store)).rows.map frameProj,
              (ensureCols (headStore limit store)).rows.length) := by
  have happ : ∀ (tick : Nat) (item : Nat × Row) (row : Row),
      frameProj (applyResult client clock tick item row) = frameProj row := by
    intro tick item row
    cases hsp : (summarize_paper client item.2.title item.2.summary).1 with
    | ok text => simp [applyResult, hsp, frameProj]
    | error e => simp [applyResult, hsp, frameProj]
  rw [summarize_all_some client clock fs cr bs limit store hbs hraw]
  simp only [Option.map_some', Option.some.injEq, Prod.mk.injEq]
  constructor
  · rw [runBatches_fst]
    exact foldl_collect_frame client clock frameProj happ _ _
  · rw [runBatches_fst]
    exact foldl_collect_length _ _ _ _

/-- C3 amended witness: the frame fields survive a concrete run. -/
theorem scheduler_frame_effect_witness :
    (summarize_all okClient clock0 fs0 5 10 100).map
        (fun out => (out.1.df.map frameProj, out.1.df.length))
      = some ((ensureCols (headStore 100 store0)).rows.map frameProj,
              (ensureCols (headStore 100 store0)).rows.length) :=
  scheduler_frame_effect okClient clock0 fs0 5 10 100 store0 (by decide) rfl

/-- C1 (code-bug evidence): after a complete run over the one-row store,
the pending set a re-run would compute is still `[(0, row0)]` — not empty —
because the run reads `data/raw/papers.csv`, which its checkpoints (written
to `data/processed/summarized.csv`) never modify; and an immediate second
run indeed processes one further batch instead of being a no-op. -/
theorem rerun_reprocesses_rows :
    ((summarize_all okClient clock0 fs0 5 10 100).map
        (fun out => (out.2 rawPath).map (fun st => computePending 100 st)))
      = some (some [(0, row0)])
    ∧ ((summarize_all okClient clock0 fs0 5 10 100).bind
        (fun out => (summarize_all okClient clock0 out.2 5 10 100).map
          (fun out2 => out2.1.checkpoints.length)))
      = some 1 :=
  ⟨by decide, by decide⟩

/-- C2: when the external call for the `k`-th pending row raises a
transport/service error, the run still completes, that row receives the
error sentinel in `summary_short` (and the `summary` mirror) and its
`summary_updated`/`week_of_update` are stamped from the `now_iso()` call
made at its completion — the failure aborts neither the batch nor the run,
and every other pending row is processed the same way. -/
theorem failed_call_writes_sentinel (client : String → ClientResult)
    (clock : Nat → Int) (fs : FileMap) (cr bs limit : Nat) (store : Store)
    (k i : Nat) (r : Row) (a : String)
    (hbs : bs ≠ 0) (hraw : fs rawPath = some store)
    (hall : ∀ p ∈ computePending limit store, isna p.2.summary = false)
    (hk : (computePending limit store).get? k = some (i, r))
    (ha : r.summary = Cell.str a) (hblank : strip a ≠ "")
    (hcall : client (prompt_for (cellToString r.title) a) = ClientResult.err) :
    (summarize_all client clock fs cr bs limit).map (fun out => out.1.df.get? i)
      = some (some
          { r with
            summary_short := Cell.str "Error generating summary.",
            summary := Cell.str "Error generating summary.",
            summary_updated := Cell.str (tsString (clock k)),
            week_of_update := Cell.str (week_of_iso (clock k)) }) := by
  have hpw : (computePending limit store).Pairwise (fun p q => p.1 ≠ q.1) :=
    (enumFilter_pairwise pendingRow 0 _).imp (fun h => Nat.ne_of_lt h)
  have hmem : (i, r) ∈ computePending limit store := List.get?_mem hk
  have hget : (ensureCols (headStore limit store)).rows.get? i = some r := by
    simpa using (enumFilter_mem hmem).2.1
  have hklt : k < (computePending limit store).length := by
    by_contra hcon
    rw [List.get?_eq_none.mpr (Nat.le_of_not_lt hcon)] at hk
    exact Option.noConfusion hk
  have hok : ∀ (t s : Cell), isna s = false →
      ∃ txt, (summarize_paper client t s).1 = Except.ok txt := by
    intro t s hna
    cases s with
    | nan => simp [isna] at hna
    | str str0 =>
      by_cases hb : strip str0 = ""
      · exact ⟨"No abstract available to summarize.",
          by simp [summarize_paper, hb]⟩
      · cases hcl : client (prompt_for (cellToString t) str0) with
        | ok txt => exact ⟨strip txt, by simp [summarize_paper, hb, hcl]⟩
        | err => exact ⟨"Error generating summary.",
            by simp [summarize_paper, hb, hcl]⟩
  have hcons : ∀ p ∈ computePending limit store,
      consumesTick client p = true := by
    intro p hp
    obtain ⟨txt, htxt⟩ := hok p.2.title p.2.summary (hall p hp)
    simp [consumesTick, htxt]
  have hcount : ((computePending limit store).take k).countP
      (consumesTick client) = k := by
    rw [List.countP_eq_length.mpr
      (fun p hp => hcons p (List.take_subset k _ hp)), List.length_take]
    omega
  have hsp : (summarize_paper client r.title r.summary).1
      = Except.ok "Error generating summary." := by
    rw [ha]; simp [summarize_paper, hblank, hcall]
  have happly : applyResult client clock (0 + k) (i, r) r
      = { r with
          summary_short := Cell.str "Error generating summary.",
          summary := Cell.str "Error generating summary.",
          summary_updated := Cell.str (tsString (clock k)),
          week_of_update := Cell.str (week_of_iso (clock k)) } := by
    simp [applyResult, hsp, Nat.zero_add]
  rw [summarize_all_some client clock fs cr bs limit store hbs hraw]
  simp only [Option.map_some', Option.some.injEq]
  rw [runBatches_fst, chunks_join bs _ hbs,
    foldl_collect_get? client clock (computePending limit store)
      ((ensureCols (headStore limit store)).rows, 0) k i r hpw hk,
    hcount]
  rw [show ((ensureCols (headStore limit store)).rows, 0).1
        = (ensureCols (headStore limit store)).rows from rfl] at *
  rw [hget, Option.map_some', happly]

/-- C2 witness: an always-failing client on the one-row store. -/
theorem failed_call_writes_sentinel_witness :
    (summarize_all errClient clock0 fs0 5 10 100).map
        (fun out => out.1.df.get? 0)
      = some (some
          { row0 with
            summary_short := Cell.str "Error generating summary.",
            summary := Cell.str "Error generating summary.",
            summary_updated := Cell.str (tsString (clock0 0)),
            week_of_update := Cell.str (week_of_iso (clock0 0)) }) :=
  failed_call_writes_sentinel errClient clock0 fs0 5 10 100 store0 0 0 row0
    "hello" (by decide) rfl (by decide) (by decide) rfl (by decide) rfl

/-- C8: the pending subset is partitioned into consecutive, non-empty,
order-preserving batches of at most `batch_size` rows whose concatenation
is exactly the pending subset, there are `⌈pending/batch_size⌉` of them,
the store is checkpointed once per batch, and every checkpoint carries the
full frame (all rows, not just the batch). -/
theorem batches_and_checkpoints (client : String → ClientResult)
    (clock : Nat → Int) (fs : FileMap) (cr bs limit : Nat) (store : Store)
    (hbs : bs ≠ 0) (hraw : fs rawPath = some store) :
    (chunks bs (computePending limit store)).join = computePending limit store
    ∧ (∀ c ∈ chunks bs (computePending limit store), c ≠ [] ∧ c.length ≤ bs)
    ∧ (chunks bs (computePending limit store)).length
        = ((computePending limit store).length + (bs - 1)) / bs
    ∧ (summarize_all client clock fs cr bs limit).map
          (fun out => out.1.checkpoints.length)
        = some (((computePending limit store).length + (bs - 1)) / bs)
    ∧ (summarize_all client clock fs cr bs limit).map
          (fun out => out.1.checkpoints.all
            (fun cp => cp.length == (ensureCols (headStore limit store)).rows.length))
        = some true := by
  refine ⟨chunks_join bs _ hbs, chunks_sizes bs _ hbs, chunks_length bs _ hbs,
    ?_, ?_⟩
  · rw [summarize_all_some client clock fs cr bs limit store hbs hraw]
    simp only [Option.map_some', Option.some.injEq]
    rw [runBatches_snd_length, chunks_length bs _ hbs]
  · rw [summarize_all_some client clock fs cr bs limit store hbs hraw]
    simp only [Option.map_some', Option.some.injEq]
    rw [List.all_eq_true]
    intro cp hcp
    simpa [beq_iff_eq] using runBatches_snd_rows client clock _ _ cp hcp

/-- C8 witness: 25 pending rows with `batch_size = 10` yield batches of
sizes 10, 10, 5, exactly 3 checkpoints, and every checkpoint holds all
25 rows. -/
theorem batches_25_witness :
    (chunks 10 (computePending 100 store25)).map List.length = [10, 10, 5]
    ∧ ((computePending 100 store25).length + 9) / 10 = 3
    ∧ (summarize_all okClient clock0 fs25 5 10 100).map
          (fun out => out.1.checkpoints.length)
        = some (((computePending 100 store25).length + 9) / 10)
    ∧ (summarize_all okClient clock0 fs25 5 10 100).map
          (fun out => out.1.checkpoints.all
            (fun cp => cp.length == (ensureCols (headStore 100 store25)).rows.length))
        = some true :=
  ⟨by decide, by decide,
   (batches_and_checkpoints okClient clock0 fs25 5 10 100 store25
     (by decide) rfl).2.2.2.1,
   (batches_and_checkpoints okClient clock0 fs25 5 10 100 store25
     (by decide) rfl).2.2.2.2⟩

/-- C4 witness: the empty-`summary_short` row is selected; the row already
carrying the error sentinel is not. -/
theorem pending_selection_iff_witness :
    ((0, row0) ∈ computePending 100 store0)
    ∧ (0, errRow) ∉ computePending 100 errStore :=
  ⟨(pending_selection_iff 100 store0 0 row0).1.mpr (by decide),
   (pending_selection_iff 100 errStore 0 errRow).2 rfl⟩

/-- C9 witness: a concrete run leaves the raw input file unchanged. -/
theorem input_store_never_written_witness :
    ((summarize_all okClient clock0 fs0 5 10 100).map
        (fun out => out.2 rawPath)).getD (fs0 rawPath) = fs0 rawPath :=
  input_store_never_written.2 okClient clock0 fs0 5 10 100
